import Mathlib

/-!
Verification of the importfindata updater (src/main.py).

The development shallow-embeds the pure logic of the script:
the manifest-line pattern and parse loop of download_polish_funds_list
(lines 38-51), the quote extraction of MstFun.get_fund_price
(lines 98-108), and the reconciliation driver of the main block
(lines 117-159).  External collaborators (HTTP, zip I/O, the gnucash
session) are modelled as explicit data: the zip archive is a mapping
from member name to its already-tokenised CSV table, and the gnucash
price database is a heap of price records plus a list of registered
heap indices, so that Python object identity and in-place mutation are
visible.  Machine text is List Char / String, exact decimals are Rat.
-/

namespace ImportFinData

instance {ε α : Type} [DecidableEq ε] [DecidableEq α] : DecidableEq (Except ε α) := by
  intro x y
  cases x <;> cases y <;>
    first
      | exact isFalse (by intro h; exact Except.noConfusion h)
      | exact decidable_of_iff _ (by constructor <;> (intro h; first | exact congrArg _ h | exact Except.noConfusion h (fun h2 => h2)))

/-! ## Character classes, Python (2.x, ASCII) semantics -/

/-- Python re whitespace class for byte strings: space, tab, LF, CR, VT, FF. -/
def isSpacePy (c : Char) : Bool :=
  c == ' ' || c == '\t' || c == '\n' || c == '\r' || c == '\x0b' || c == '\x0c'

/-- ASCII digit, the meaning of a digit class in the Python 2 re module. -/
def isDigitA (c : Char) : Bool :=
  '0' ≤ c && c ≤ '9'

def digitVal (c : Char) : Nat := c.toNat - 48

def digitsToNat (ds : List Char) : Nat :=
  ds.foldl (fun a c => a * 10 + digitVal c) 0

def emptyStr : String := ""

/-! ## Calendar dates and strptime

datetime.datetime.strptime compiles the format into a regex
(underscore-strptime module) and then builds a datetime, which checks
calendar validity.  The per-directive regexes are embedded verbatim:
a year directive is four digits, a month directive is 1[0-2] or 0[1-9]
or [1-9] (tried in that order), a day directive is 3[01] or [12] digit
or 0[1-9] or [1-9].
-/

structure Date where
  year : Nat
  month : Nat
  day : Nat
deriving DecidableEq

/-- Chronological key: for calendar dates (month below 100, day below 100)
this orders exactly as (year, month, day) lexicographically. -/
def Date.key (d : Date) : Nat := d.year * 10000 + d.month * 100 + d.day

def isLeapYear (y : Nat) : Bool :=
  y % 4 == 0 && (y % 100 != 0 || y % 400 == 0)

def daysInMonth (y m : Nat) : Nat :=
  if m == 2 then (if isLeapYear y then 29 else 28)
  else if m == 4 || m == 6 || m == 9 || m == 11 then 30
  else 31

/-- The datetime constructor validation: MINYEAR is 1, and the day must
exist in the month.  The month range 1..12 and day range 1..31 are already
guaranteed by the directive regexes. -/
def mkValidDate (y m d : Nat) : Option Date :=
  if 1 ≤ y ∧ 1 ≤ d ∧ d ≤ daysInMonth y m then some ⟨y, m, d⟩ else none

/-- Month directive alternatives, in regex alternation order, each giving
(value, remaining input). -/
def monthAlts (s : List Char) : List (Nat × List Char) :=
  (match s with
   | '1' :: c :: r => if '0' ≤ c && c ≤ '2' then [(10 + digitVal c, r)] else []
   | _ => []) ++
  (match s with
   | '0' :: c :: r => if '1' ≤ c && c ≤ '9' then [(digitVal c, r)] else []
   | _ => []) ++
  (match s with
   | c :: r => if '1' ≤ c && c ≤ '9' then [(digitVal c, r)] else []
   | _ => [])

/-- Day directive alternatives, in regex alternation order. -/
def dayAlts (s : List Char) : List (Nat × List Char) :=
  (match s with
   | '3' :: c :: r => if c == '0' || c == '1' then [(30 + digitVal c, r)] else []
   | _ => []) ++
  (match s with
   | c1 :: c2 :: r =>
     if ('1' ≤ c1 && c1 ≤ '2') && isDigitA c2 then
       [(digitVal c1 * 10 + digitVal c2, r)] else []
   | _ => []) ++
  (match s with
   | '0' :: c :: r => if '1' ≤ c && c ≤ '9' then [(digitVal c, r)] else []
   | _ => []) ++
  (match s with
   | c :: r => if '1' ≤ c && c ≤ '9' then [(digitVal c, r)] else []
   | _ => [])

/-- strptime with format year-month-day with dashes (the manifest date
format of line 48-49): four digits, a dash, month, a dash, day, end of
input, with regex backtracking over the alternatives, then calendar
validation. -/
def strptimeYmdDashed (s : String) : Option Date :=
  match s.data with
  | y1 :: y2 :: y3 :: y4 :: '-' :: rest =>
    if isDigitA y1 && isDigitA y2 && isDigitA y3 && isDigitA y4 then
      (monthAlts rest).findSome? fun mr =>
        match mr.2 with
        | '-' :: r2 =>
          (dayAlts r2).findSome? fun dr =>
            if dr.2 = [] then mkValidDate (digitsToNat [y1, y2, y3, y4]) mr.1 dr.1
            else none
        | _ => none
    else none
  | _ => none

/-- strptime with the compact year month day format (the quote date format
of line 108): four digits, month, day, end of input. -/
def strptimeYmd8 (s : String) : Option Date :=
  match s.data with
  | y1 :: y2 :: y3 :: y4 :: rest =>
    if isDigitA y1 && isDigitA y2 && isDigitA y3 && isDigitA y4 then
      (monthAlts rest).findSome? fun mr =>
        (dayAlts mr.2).findSome? fun dr =>
          if dr.2 = [] then mkValidDate (digitsToNat [y1, y2, y3, y4]) mr.1 dr.1
          else none
    else none
  | _ => none

/-! ## Exact decimal parsing (decimal.Decimal on a numeric string)

decimal.Decimal(str) strips surrounding whitespace and accepts an
optional sign, an integer part and/or a fractional part (at least one
digit between them), and an optional exponent.  The value is exact; no
binary floating point is involved.  The special values NaN and Infinity
are not numeric literals and are outside this model. -/

def trimPy (cs : List Char) : List Char :=
  ((cs.dropWhile isSpacePy).reverse.dropWhile isSpacePy).reverse

def parseExpDigits (t : List Char) (pos : Bool) : Option ℚ :=
  if t ≠ [] ∧ t.all isDigitA then
    some (if pos then (10 : ℚ) ^ digitsToNat t else ((10 : ℚ) ^ digitsToNat t)⁻¹)
  else none

def parseExpPart : List Char → Option ℚ
  | [] => some 1
  | c :: r =>
    if c == 'e' || c == 'E' then
      match r with
      | '+' :: t => parseExpDigits t true
      | '-' :: t => parseExpDigits t false
      | t => parseExpDigits t true
    else none

def parseDecimalDigits (cs : List Char) : Option ℚ :=
  let intd := cs.takeWhile isDigitA
  let r1 := cs.dropWhile isDigitA
  match r1 with
  | '.' :: r2 =>
    let frac := r2.takeWhile isDigitA
    let r3 := r2.dropWhile isDigitA
    if intd = [] ∧ frac = [] then none
    else (parseExpPart r3).map fun e =>
      ((digitsToNat intd : ℚ) + (digitsToNat frac : ℚ) / (10 : ℚ) ^ frac.length) * e
  | _ =>
    if intd = [] then none
    else (parseExpPart r1).map fun e => (digitsToNat intd : ℚ) * e

def parseDecimal (s : String) : Option ℚ :=
  match trimPy s.data with
  | '+' :: r => parseDecimalDigits r
  | '-' :: r => (parseDecimalDigits r).map Neg.neg
  | cs => parseDecimalDigits cs

/-! ## Python dict as an insertion-ordered association list

Assignment to an existing key replaces its value in place; a new key is
appended at the end. -/

def dictInsert {α : Type} : List (String × α) → String → α → List (String × α)
  | [], k, v => [(k, v)]
  | (k0, v0) :: rest, k, v =>
    if k0 = k then (k, v) :: rest else (k0, v0) :: dictInsert rest k v

def lookupDict {α : Type} : List (String × α) → String → Option α
  | [], _ => none
  | (k0, v) :: rest, k => if k0 = k then some v else lookupDict rest k

/-! ## The manifest line pattern (source line 38-39)

The pattern is a date group of four digits, dash, two digits, dash, two
digits; then three runs of whitespace-then-token; then whitespace and the
captured member token; then whitespace and the captured free-text name,
which is one non-whitespace character, then any characters other than a
line feed, then one non-whitespace character; then optional trailing
whitespace to the end.  Because every token run is followed by a
mandatory whitespace run, the regex backtracking admits exactly one
decomposition: each of the five tokens is a maximal non-whitespace run,
and the name group is the rest of the line with trailing whitespace
stripped, matching only when that core has at least two characters and
no embedded line feed. -/

/-- One-or-more whitespace: requires a leading whitespace character and
consumes the maximal whitespace run. -/
def eatSpaces1 : List Char → Option (List Char)
  | [] => none
  | c :: rest => if isSpacePy c then some (rest.dropWhile isSpacePy) else none

/-- One-or-more non-whitespace: requires a leading non-whitespace character
and returns the maximal non-whitespace run and the remainder. -/
def eatToken1 (s : List Char) : Option (List Char × List Char) :=
  match s with
  | [] => none
  | c :: _ =>
    if isSpacePy c then none
    else some (s.takeWhile (fun x => !isSpacePy x), s.dropWhile (fun x => !isSpacePy x))

def trimTrailPy (cs : List Char) : List Char :=
  (cs.reverse.dropWhile isSpacePy).reverse

def matchDateLineL (l : List Char) : Option (String × String × String) :=
  match l with
  | y1 :: y2 :: y3 :: y4 :: h1 :: m1 :: m2 :: h2 :: d1 :: d2 :: rest =>
    if isDigitA y1 && isDigitA y2 && isDigitA y3 && isDigitA y4 && (h1 == '-') &&
       isDigitA m1 && isDigitA m2 && (h2 == '-') && isDigitA d1 && isDigitA d2 then
      (eatSpaces1 rest).bind fun r1 =>
      (eatToken1 r1).bind fun p1 =>
      (eatSpaces1 p1.2).bind fun r2 =>
      (eatToken1 r2).bind fun p2 =>
      (eatSpaces1 p2.2).bind fun r3 =>
      (eatToken1 r3).bind fun p3 =>
      (eatSpaces1 p3.2).bind fun r4 =>
      (eatToken1 r4).bind fun p4 =>
      (eatSpaces1 p4.2).bind fun r5 =>
        let core := trimTrailPy r5
        if 2 ≤ core.length ∧ core.contains '\n' = false then
          some (String.mk [y1, y2, y3, y4, h1, m1, m2, h2, d1, d2],
                String.mk p4.1, String.mk core)
        else none
    else none
  | _ => none

def matchDateLine (l : String) : Option (String × String × String) :=
  matchDateLineL l.data

/-! ## Manifest parsing (download_polish_funds_list, lines 42-51)

The network fetch is external; the parse consumes the list of lines of
the downloaded text (splitlines).  The first three and last two lines
are discarded unconditionally; each remaining line must match the
pattern, else the whole parse fails with the offending raw line in the
message; matched lines populate the fund dict, name to (file, date). -/

def lstLineErrMsg (l : String) : String :=
  "Could not extract information from" ++ ("lst\x27s line: " ++ l)

def strptimeErrMsg (d : String) : String :=
  "time data " ++ (d ++ " does not match format")

def parseLinesGo : List (String × String × Date) → List String →
    Except String (List (String × String × Date))
  | d, [] => .ok d
  | d, l :: rest =>
    match matchDateLine l with
    | none => .error (lstLineErrMsg l)
    | some g =>
      match strptimeYmdDashed g.1 with
      | none => .error (strptimeErrMsg g.1)
      | some dt => parseLinesGo (dictInsert d g.2.2 (g.2.1, dt)) rest

/-- The slice from index 3 up to two before the end, the body between the
fixed-size header and trailer. -/
def manifestBody (lines : List String) : List String :=
  ((lines.drop 3).dropLast).dropLast

def parseMstfunLines (lines : List String) :
    Except String (List (String × String × Date)) :=
  parseLinesGo [] (manifestBody lines)

/-- A body line that the parse loop accepts: it matches the pattern and
its date group parses. -/
def lineOk (l : String) : Bool :=
  match matchDateLine l with
  | some g => (strptimeYmdDashed g.1).isSome
  | none => false

/-- The fund name captured from a body line (empty for a non-matching
line); the key under which the line is stored in the fund dict. -/
def lineNameOf (l : String) : String :=
  match matchDateLine l with
  | some g => g.2.2
  | none => emptyStr

/-- The keys of a dict in insertion order. -/
def dictKeys {α : Type} (d : List (String × α)) : List String :=
  d.map Prod.fst

/-- The effect of one dict insertion on the key list: an existing key is
kept in place, a new key is appended. -/
def insKey (ks : List String) (k : String) : List String :=
  if k ∈ ks then ks else ks ++ [k]

/-! ## Quote extraction (MstFun.get_fund_price, lines 98-108)

The zip archive is a mapping from member name to the member CSV table,
already tokenised into rows of fields (header row first).  read_csv
with a usecols list keeps the selected columns in the order they occur
in the file, not in usecols order; the subsequent positional rename to
date and price therefore binds date to whichever selected column comes
first in the file.  Values are kept as raw text (dtype str).  The last
row is taken as the latest quote; its price is parsed as an exact
decimal, its date with the compact strptime format.  A member absent
from the archive raises, as does an unparsable table. -/

def dtColName : String := "<DTYYYYMMDD>"

def closeColName : String := "<CLOSE>"

def fieldAt (r : List String) (n : Nat) : String :=
  (r.get? n).getD emptyStr

/-- The chronological key of the date field of a row (0 when the field
is not a parsable compact date); used to state the ascending-rows
precondition of the data source. -/
def rowDateKey (lo : Nat) (r : List String) : Nat :=
  match strptimeYmd8 (fieldAt r lo) with
  | some d => d.key
  | none => 0

/-- The data-source precondition that rows are chronologically ordered
ascending by their date column. -/
def tableAscending (lo : Nat) : List (List String) → Bool
  | r1 :: r2 :: rest =>
    Nat.ble (rowDateKey lo r1) (rowDateKey lo r2) && tableAscending lo (r2 :: rest)
  | _ => true

def rowFields (lo hi : Nat) (r : List String) : Except String (String × String) :=
  match r.get? lo, r.get? hi with
  | some a, some b => .ok (a, b)
  | _, _ => .error ("row is missing required fields")

def readCsvTable (content : List (List String)) :
    Except String (List (String × String)) :=
  match content with
  | [] => .error ("No columns to parse from file")
  | header :: rows =>
    match header.findIdx? (fun s => s == dtColName),
          header.findIdx? (fun s => s == closeColName) with
    | some di, some ci => rows.mapM (rowFields (min di ci) (max di ci))
    | _, _ => .error ("Usecols do not match columns")

def getQuoteFromMember (A : List (String × List (List String)))
    (filename : String) : Except String (Option (ℚ × Date)) :=
  match lookupDict A filename with
  | none => .error ("There is no item named " ++ (filename ++ " in the archive"))
  | some content =>
    match readCsvTable content with
    | .error e => .error e
    | .ok rows =>
      match rows.getLast? with
      | none => .error ("single positional indexer is out-of-bounds")
      | some lastRow =>
        match parseDecimal lastRow.2, strptimeYmd8 lastRow.1 with
        | some p, some dt => .ok (some (p, dt))
        | none, _ => .error ("InvalidOperation " ++ lastRow.2)
        | some _, none => .error (strptimeErrMsg lastRow.1)

/-- get_fund_price: None (ok none) when the name is not a manifest key,
otherwise the quote from the named member; the stored manifest date is
bound but never read.  Errors propagate as Except.error. -/
def get_fund_price (M : List (String × String × Date))
    (A : List (String × List (List String))) (name : String) :
    Except String (Option (ℚ × Date)) :=
  match lookupDict M name with
  | none => .ok none
  | some fd => getQuoteFromMember A fd.1

/-! ## The gnucash side (external collaborator)

A price record carries commodity, currency, a timestamp (modelled as a
calendar date, the granularity the script compares at) and a fixed
point value num/denom.  The price database is a heap of records, so
Python object identity is the heap index, plus the list of indices
registered in the database; lookup of the latest price returns the
index and record, mutation rewrites a heap cell, add_price registers an
index. -/

structure GncNumeric where
  num : Int
  denom : Int
deriving DecidableEq

structure PriceRecord where
  commodity : String
  currency : String
  time : Date
  value : GncNumeric
deriving DecidableEq

structure PriceDB where
  heap : List PriceRecord
  entries : List Nat
deriving DecidableEq

def currencyPLN : String := "PLN"

/-- Latest registered price for the commodity and currency pair: the
entry with the greatest timestamp (first such on ties), with its heap
index. -/
def lookupLatest (db : PriceDB) (c cur : String) : Option (Nat × PriceRecord) :=
  db.entries.foldl (fun acc i =>
    match db.heap.get? i with
    | none => acc
    | some p =>
      if p.commodity = c ∧ p.currency = cur then
        match acc with
        | none => some (i, p)
        | some jq => if jq.2.time.key < p.time.key then some (i, p) else acc
      else acc) none

/-- Decimal.to_integral with the default context: round half to even. -/
def roundHalfEven (q : ℚ) : ℤ :=
  if q - (⌊q⌋ : ℚ) < 1 / 2 then ⌊q⌋
  else if 1 / 2 < q - (⌊q⌋ : ℚ) then ⌊q⌋ + 1
  else if ⌊q⌋ % 2 = 0 then ⌊q⌋ else ⌊q⌋ + 1

/-- Lines 152-154: v = p.get_value(); v.num = (price * v.denom).to_integral();
the denominator is kept. -/
def convertQuoteValue (price : ℚ) (v : GncNumeric) : GncNumeric :=
  { num := roundHalfEven (price * (v.denom : ℚ)), denom := v.denom }

/-- The progress lines printed by the driver, as structured messages
carrying the data interpolated into the format strings. -/
inductive Msg where
  | skipNoPrice (name : String)
  | skipNoQuote (name : String)
  | skipStale (name : String) (t1 t2 : Date)
  | updating (name : String) (price : ℚ) (date : Date)
deriving DecidableEq

/-! ## The reconciliation driver (lines 125-155)

Per commodity: look up the latest PLN price, skip with a report when
none; resolve a quote through get_fund_price on the transliterated
name, skip with a report when the fund is not in the manifest, abort on
an error; skip with a report when the existing timestamp is greater
than or equal to the quote date; otherwise clone the record (line 148,
the clone is discarded by the line 150 rebinding to the looked-up
record), mutate the looked-up record with the quote date and the
converted value, and register that same record in the database. -/

def processCommodity (A : List (String × List (List String)))
    (M : List (String × String × Date)) (u : String → String)
    (db : PriceDB) (c : String) : Except String (PriceDB × List Msg) :=
  match lookupLatest db c currencyPLN with
  | none => .ok (db, [Msg.skipNoPrice c])
  | some ip =>
    match get_fund_price M A (u c) with
    | .error e => .error e
    | .ok none => .ok (db, [Msg.skipNoQuote c])
    | .ok (some q) =>
      if q.2.key ≤ ip.2.time.key then
        .ok (db, [Msg.skipStale c ip.2.time q.2])
      else
        let pNew : PriceRecord :=
          { ip.2 with time := q.2, value := convertQuoteValue q.1 ip.2.value }
        .ok ({ heap := (db.heap ++ [ip.2]).set ip.1 pNew,
               entries := db.entries ++ [ip.1] },
             [Msg.updating c q.1 q.2])

inductive SessEvent where
  | save
  | endSession
  | destroy
deriving DecidableEq

/-- The commodity loop: sequential, stopping at the first propagated
error; per-commodity messages accumulate in order. -/
def runLoop (A : List (String × List (List String)))
    (M : List (String × String × Date)) (u : String → String) :
    PriceDB → List Msg → List String → PriceDB × List Msg × Option String
  | db, msgs, [] => (db, msgs, none)
  | db, msgs, c :: rest =>
    match processCommodity A M u db c with
    | .error e => (db, msgs, some e)
    | .ok r => runLoop A M u r.1 (msgs ++ r.2) rest

structure RunOutcome where
  db : PriceDB
  msgs : List Msg
  err : Option String
  events : List SessEvent

/-- Lines 117-159: the try body runs the loop and then session.save();
the finally clause runs session.end() and session.destroy()
unconditionally.  The session events record that control flow. -/
def runDriver (A : List (String × List (List String)))
    (M : List (String × String × Date)) (u : String → String)
    (cs : List String) (db0 : PriceDB) : RunOutcome :=
  { db := (runLoop A M u db0 [] cs).1,
    msgs := (runLoop A M u db0 [] cs).2.1,
    err := (runLoop A M u db0 [] cs).2.2,
    events := (match (runLoop A M u db0 [] cs).2.2 with
               | none => [SessEvent.save]
               | some _ => []) ++ [SessEvent.endSession, SessEvent.destroy] }

/-! ## Concrete instances used by witnesses and counterexamples -/

def fundA : String := "FundA"

def fundB : String := "FundB"

def fileFund : String := "fund.mst"

def fileGone : String := "gone.mst"

def fileSwap : String := "swap.mst"

def d0101 : Date := ⟨2023, 1, 1⟩

def d0102 : Date := ⟨2023, 1, 2⟩

def tableGood : List (List String) :=
  [["<DTYYYYMMDD>", "<CLOSE>"], ["20230101", "10.00"], ["20230102", "10.50"]]

def tableSwapped : List (List String) :=
  [["<CLOSE>", "<DTYYYYMMDD>"], ["10.50", "20230102"]]

def plRec : PriceRecord :=
  { commodity := fundA, currency := currencyPLN, time := d0101,
    value := { num := 1000, denom := 100 } }

/-- The looked-up record after the in-place update: quote date, value
1050/100. -/
def plMutated : PriceRecord :=
  { commodity := fundA, currency := currencyPLN, time := d0102,
    value := { num := 1050, denom := 100 } }

def plRecB : PriceRecord :=
  { commodity := fundB, currency := currencyPLN, time := d0101,
    value := { num := 1000, denom := 100 } }

def db0 : PriceDB := { heap := [plRec], entries := [0] }

def db2 : PriceDB := { heap := [plRec, plRecB], entries := [0, 1] }

def M0 : List (String × String × Date) := [(fundA, (fileFund, d0102))]

/-- Same manifest as M0 except for the (unused) stored date. -/
def M0b : List (String × String × Date) := [(fundA, (fileFund, d0101))]

def A0 : List (String × List (List String)) := [(fileFund, tableGood)]

def M2 : List (String × String × Date) :=
  [(fundA, (fileGone, d0102)), (fundB, (fileFund, d0102))]

def M4 : List (String × String × Date) := [(fundA, (fileSwap, d0102))]

def A4 : List (String × List (List String)) := [(fileSwap, tableSwapped)]

/-- A seven-line manifest: three header lines, two body lines carrying
the same fund name (the second overwrites the first), two trailer
lines. -/
def mLines : List String :=
  ["h1", "h2", "h3",
   "2023-01-02 x1 x2 x3 fund.mst Example Fund",
   "2023-01-03 y1 y2 y3 other.mst Example Fund",
   "t1", "t2"]

/-- A line of the documented record shape except that its fund-name
field is the single character X. -/
def cexLine : List Char := ("2017-01-01 a b c fund.mst X").data

/-! # Lemmas and claim theorems -/

/-- Round half to even differs from its argument by at most one half. -/
theorem roundHalfEven_abs_sub_le (q : ℚ) : |(roundHalfEven q : ℚ) - q| ≤ 1 / 2 := by
  have h0 : ((⌊q⌋ : ℤ) : ℚ) ≤ q := Int.floor_le q
  have h1 : q < (⌊q⌋ : ℚ) + 1 := Int.lt_floor_add_one q
  unfold roundHalfEven
  by_cases hc1 : q - ((⌊q⌋ : ℤ) : ℚ) < 1 / 2
  · rw [if_pos hc1, abs_le]
    constructor <;> linarith
  · rw [if_neg hc1]
    by_cases hc2 : (1 : ℚ) / 2 < q - ((⌊q⌋ : ℤ) : ℚ)
    · rw [if_pos hc2]
      push_cast
      rw [abs_le]
      constructor <;> linarith
    · rw [if_neg hc2]
      have heq : q - ((⌊q⌋ : ℤ) : ℚ) = 1 / 2 :=
        le_antisymm (not_lt.mp hc2) (not_lt.mp hc1)
      by_cases hc3 : (⌊q⌋ : ℤ) % 2 = 0
      · rw [if_pos hc3, abs_le]
        constructor <;> linarith
      · rw [if_neg hc3]
        push_cast
        rw [abs_le]
        constructor <;> linarith

/-- C5: converting a decimal quote price P into the ledger fixed-point
value keeps the denominator D of the existing record and sets the
numerator to the rounding to integral of P times D; re-dividing
numerator by denominator recovers P to within 1/D. -/
theorem convert_value_keeps_denom_and_roundtrips (P : ℚ) (v : GncNumeric)
    (hd : 0 < v.denom) :
    (convertQuoteValue P v).denom = v.denom ∧
    (convertQuoteValue P v).num = roundHalfEven (P * (v.denom : ℚ)) ∧
    |((convertQuoteValue P v).num : ℚ) / ((v.denom : ℤ) : ℚ) - P| ≤
      1 / ((v.denom : ℤ) : ℚ) := by
  refine ⟨rfl, rfl, ?_⟩
  have hD : (0 : ℚ) < ((v.denom : ℤ) : ℚ) := by exact_mod_cast hd
  have hb := roundHalfEven_abs_sub_le (P * (v.denom : ℚ))
  have heq : ((convertQuoteValue P v).num : ℚ) / ((v.denom : ℤ) : ℚ) - P =
      (((roundHalfEven (P * (v.denom : ℚ)) : ℤ) : ℚ) - P * (v.denom : ℚ)) / ((v.denom : ℤ) : ℚ) := by
    show ((roundHalfEven (P * (v.denom : ℚ)) : ℤ) : ℚ) / ((v.denom : ℤ) : ℚ) - P = _
    rw [sub_div, mul_div_cancel_right₀ _ hD.ne']
  rw [heq, abs_div, abs_of_pos hD]
  have h2 : |((roundHalfEven (P * (v.denom : ℚ)) : ℤ) : ℚ) - P * (v.denom : ℚ)| /
      ((v.denom : ℤ) : ℚ) ≤ (1 / 2) / ((v.denom : ℤ) : ℚ) :=
    (div_le_div_iff_of_pos_right hD).mpr hb
  have h3 : ((1 : ℚ) / 2) / ((v.denom : ℤ) : ℚ) ≤ 1 / ((v.denom : ℤ) : ℚ) :=
    (div_le_div_iff_of_pos_right hD).mpr (by norm_num)
  exact le_trans h2 h3

theorem convert_value_keeps_denom_and_roundtrips_witness :
    (0 : ℤ) < 100 ∧
    (convertQuoteValue ((21 : ℚ) / 2) ⟨1000, 100⟩).denom = 100 ∧
    (convertQuoteValue ((21 : ℚ) / 2) ⟨1000, 100⟩).num =
      roundHalfEven (((21 : ℚ) / 2) * (((100 : ℤ) : ℚ))) ∧
    |((convertQuoteValue ((21 : ℚ) / 2) ⟨1000, 100⟩).num : ℚ) / (((100 : ℤ) : ℤ) : ℚ) -
        (21 : ℚ) / 2| ≤ 1 / (((100 : ℤ) : ℤ) : ℚ) :=
  ⟨by decide, convert_value_keeps_denom_and_roundtrips ((21 : ℚ) / 2) ⟨1000, 100⟩ (by decide)⟩

/-- C8: the session is persisted at most once, exactly once when the run
completes and never when a fatal error propagates, and the session end
and destroy events occur unconditionally in both outcomes. -/
theorem session_saved_once_and_torn_down (A : List (String × List (List String)))
    (M : List (String × String × Date)) (u : String → String)
    (cs : List String) (db0x : PriceDB) :
    (runDriver A M u cs db0x).events.count SessEvent.save ≤ 1 ∧
    SessEvent.endSession ∈ (runDriver A M u cs db0x).events ∧
    SessEvent.destroy ∈ (runDriver A M u cs db0x).events ∧
    ((runDriver A M u cs db0x).err = none →
      (runDriver A M u cs db0x).events.count SessEvent.save = 1) ∧
    (∀ e, (runDriver A M u cs db0x).err = some e →
      (runDriver A M u cs db0x).events.count SessEvent.save = 0) := by
  unfold runDriver
  cases hr : (runLoop A M u db0x [] cs).2.2 with
  | none => simp
  | some e => simp

/-- C1: with a baseline price (timestamp T1) and a resolved quote
(dated T2) for a commodity, the driver registers a price in the database
iff T2 is strictly newer than T1; for T2 less than or equal to T1 the
database is unchanged and the commodity is reported skipped as stale. -/
theorem freshness_insert_iff (A : List (String × List (List String)))
    (M : List (String × String × Date)) (u : String → String)
    (db : PriceDB) (c : String) (i : Nat) (pl : PriceRecord)
    (price : ℚ) (qdate : Date)
    (hl : lookupLatest db c currencyPLN = some (i, pl))
    (hq : get_fund_price M A (u c) = .ok (some (price, qdate))) :
    ∃ dbx msgs, processCommodity A M u db c = .ok (dbx, msgs) ∧
      (dbx.entries.length = db.entries.length + 1 ↔ pl.time.key < qdate.key) ∧
      (qdate.key ≤ pl.time.key →
        dbx = db ∧ msgs = [Msg.skipStale c pl.time qdate]) ∧
      (pl.time.key < qdate.key → msgs = [Msg.updating c price qdate]) := by
  have hstep : processCommodity A M u db c =
      (if qdate.key ≤ pl.time.key then
        .ok (db, [Msg.skipStale c pl.time qdate])
      else
        .ok ({ heap := (db.heap ++ [pl]).set i
                 { pl with time := qdate, value := convertQuoteValue price pl.value },
               entries := db.entries ++ [i] },
             [Msg.updating c price qdate])) := by
    unfold processCommodity
    rw [hl, hq]
  by_cases hcmp : qdate.key ≤ pl.time.key
  · rw [if_pos hcmp] at hstep
    refine ⟨db, [Msg.skipStale c pl.time qdate], hstep, ?_, fun _ => ⟨rfl, rfl⟩,
      fun h => absurd hcmp (by omega)⟩
    constructor
    · intro h
      exact absurd h (by omega)
    · intro h
      exact absurd hcmp (by omega)
  · rw [if_neg hcmp] at hstep
    refine ⟨_, _, hstep, ?_, fun h => absurd h hcmp, fun _ => rfl⟩
    constructor
    · intro _
      omega
    · intro _
      simp

theorem freshness_insert_iff_witness :
    ∃ dbx msgs, processCommodity A0 M0 id db0 fundA = .ok (dbx, msgs) ∧
      (dbx.entries.length = db0.entries.length + 1 ↔ plRec.time.key < d0102.key) ∧
      (d0102.key ≤ plRec.time.key →
        dbx = db0 ∧ msgs = [Msg.skipStale fundA plRec.time d0102]) ∧
      (plRec.time.key < d0102.key →
        msgs = [Msg.updating fundA ((21 : ℚ) / 2) d0102]) :=
  freshness_insert_iff A0 M0 id db0 fundA 0 plRec ((21 : ℚ) / 2) d0102
    (by decide) (by with_unfolding_all rfl)

/-- C3: at an input where a strictly newer quote exists, the driver does
not leave the looked-up baseline record unchanged and does not register
a distinct record: line 150 rebinds the clone of lines 148-149 back to
the looked-up record, so the looked-up record itself (heap index 0) is
mutated in place to the quote date and converted value, the sole
registered index is duplicated (entries [0, 0]), and the discarded
clone of the old record sits unregistered at index 1. -/
theorem update_mutates_baseline_record :
    processCommodity A0 M0 id db0 fundA =
      .ok ({ heap := [plMutated, plRec], entries := [0, 0] },
           [Msg.updating fundA ((21 : ℚ) / 2) d0102]) ∧
    plMutated ≠ plRec ∧
    ({ heap := [plMutated, plRec], entries := [0, 0] } : PriceDB).heap.get? 0 ≠
      db0.heap.get? 0 := by
  refine ⟨by with_unfolding_all rfl, by decide, by decide⟩

/-- C2 counterexample: FundA has a baseline price and a manifest entry,
but its archive member is absent; the claim says this per-fund problem
only skips FundA and the run continues, yet the run aborts with the
member error and FundB (which also has a baseline) is never processed:
no messages at all are emitted. -/
theorem missing_member_aborts_run :
    (runDriver A0 M2 id [fundA, fundB] db2).err =
      some ("There is no item named " ++ (fileGone ++ " in the archive")) ∧
    (runDriver A0 M2 id [fundA, fundB] db2).msgs = [] := by
  refine ⟨by decide, by decide⟩

/-- C2 amended: only the fund-name-absent-from-manifest problem is a
per-fund skip; in that case the commodity is skipped with a report, the
database is untouched and the loop continues with the remaining funds.
(A missing archive member or an unparsable table instead raises out of
get_fund_price and aborts the run, as the counterexample shows.) -/
theorem absent_fund_skipped_and_run_continues
    (A : List (String × List (List String)))
    (M : List (String × String × Date)) (u : String → String)
    (db : PriceDB) (c : String) (i : Nat) (pl : PriceRecord)
    (msgs : List Msg) (rest : List String)
    (hl : lookupLatest db c currencyPLN = some (i, pl))
    (hn : lookupDict M (u c) = none) :
    processCommodity A M u db c = .ok (db, [Msg.skipNoQuote c]) ∧
    runLoop A M u db msgs (c :: rest) =
      runLoop A M u db (msgs ++ [Msg.skipNoQuote c]) rest := by
  have hp : processCommodity A M u db c = .ok (db, [Msg.skipNoQuote c]) := by
    unfold processCommodity get_fund_price
    rw [hl, hn]
  refine ⟨hp, ?_⟩
  show (match processCommodity A M u db c with
        | .error e => (db, msgs, some e)
        | .ok r => runLoop A M u r.1 (msgs ++ r.2) rest) = _
  rw [hp]

theorem absent_fund_skipped_and_run_continues_witness :
    processCommodity A0 [] id db0 fundA = .ok (db0, [Msg.skipNoQuote fundA]) ∧
    runLoop A0 [] id db0 [] [fundA, fundB] =
      runLoop A0 [] id db0 ([] ++ [Msg.skipNoQuote fundA]) [fundB] :=
  absent_fund_skipped_and_run_continues A0 [] id db0 fundA 0 plRec [] [fundB]
    (by decide) (by decide)

/-- Two manifest dicts that agree on names and member files (dates may
differ) resolve any name to the same member file. -/
theorem lookup_file_congr (M1 M2 : List (String × String × Date)) (name : String)
    (h : M1.map (fun e => (e.1, e.2.1)) = M2.map (fun e => (e.1, e.2.1))) :
    (lookupDict M1 name).map Prod.fst = (lookupDict M2 name).map Prod.fst := by
  induction M1 generalizing M2 with
  | nil =>
    cases M2 with
    | nil => rfl
    | cons b bs => simp at h
  | cons a as ih =>
    cases M2 with
    | nil => simp at h
    | cons b bs =>
      obtain ⟨k1, f1, dt1⟩ := a
      obtain ⟨k2, f2, dt2⟩ := b
      simp only [List.map_cons, List.cons.injEq, Prod.mk.injEq] at h
      obtain ⟨⟨hk, hf⟩, htail⟩ := h
      subst hk
      subst hf
      by_cases hn : k1 = name
      · simp [lookupDict, hn]
      · simp only [lookupDict, hn, if_neg]
        exact ih bs htail

/-- C10: the quote resolved by get_fund_price, and the whole
per-commodity decision of the driver, depend only on the manifest names
and member files and on the archive content, never on the stored
per-fund manifest dates: the date of line 48-49 is bound at line 100
and never read. -/
theorem quote_independent_of_manifest_dates
    (M1 M2 : List (String × String × Date))
    (A : List (String × List (List String))) (u : String → String)
    (db : PriceDB) (c : String)
    (h : M1.map (fun e => (e.1, e.2.1)) = M2.map (fun e => (e.1, e.2.1))) :
    (∀ name, get_fund_price M1 A name = get_fund_price M2 A name) ∧
    processCommodity A M1 u db c = processCommodity A M2 u db c := by
  have hq : ∀ name, get_fund_price M1 A name = get_fund_price M2 A name := by
    intro name
    have hcg := lookup_file_congr M1 M2 name h
    unfold get_fund_price
    cases h1 : lookupDict M1 name with
    | none =>
      cases h2 : lookupDict M2 name with
      | none => rfl
      | some fd2 => rw [h1, h2] at hcg; simp at hcg
    | some fd1 =>
      cases h2 : lookupDict M2 name with
      | none => rw [h1, h2] at hcg; simp at hcg
      | some fd2 =>
        rw [h1, h2] at hcg
        have hf : fd1.1 = fd2.1 := by simpa using hcg
        show getQuoteFromMember A fd1.1 = getQuoteFromMember A fd2.1
        rw [hf]
  refine ⟨hq, ?_⟩
  unfold processCommodity
  rw [hq (u c)]

theorem quote_independent_of_manifest_dates_witness :
    (∀ name, get_fund_price M0 A0 name = get_fund_price M0b A0 name) ∧
    processCommodity A0 M0 id db0 fundA = processCommodity A0 M0b id db0 fundA :=
  quote_independent_of_manifest_dates M0 M0b A0 id db0 fundA (by decide)

/-- Row extraction succeeds on every row that has both selected fields,
yielding the fields at the lower and higher selected positions. -/
theorem mapM_rowFields_ok (lo hi : Nat) (rows : List (List String))
    (h : ∀ r ∈ rows, (r.get? lo).isSome ∧ (r.get? hi).isSome) :
    rows.mapM (rowFields lo hi) =
      .ok (rows.map (fun r => (fieldAt r lo, fieldAt r hi))) := by
  induction rows with
  | nil => rfl
  | cons r rs ih =>
    have hr := h r (by simp)
    obtain ⟨a, ha⟩ := Option.isSome_iff_exists.mp hr.1
    obtain ⟨b, hb⟩ := Option.isSome_iff_exists.mp hr.2
    have hrf : rowFields lo hi r = .ok (a, b) := by
      unfold rowFields
      rw [ha, hb]
    have hfa : fieldAt r lo = a := by
      unfold fieldAt
      rw [ha]
      rfl
    have hfb : fieldAt r hi = b := by
      unfold fieldAt
      rw [hb]
      rfl
    rw [List.mapM_cons, hrf, ih (fun x hx => h x (by simp [hx])),
        List.map_cons, hfa, hfb]
    rfl

/-- C4 counterexample: a one-row table whose header lists the closing
price column before the date column.  read_csv keeps the file order, so
the positional rename binds date to the closing price text; strptime
then fails on 10.50 and get_fund_price raises instead of returning the
last row verbatim. -/
theorem swapped_columns_break_quote :
    get_fund_price M4 A4 fundA = .error (strptimeErrMsg ("10.50")) ∧
    get_fund_price M4 A4 fundA ≠ .ok (some ((21 : ℚ) / 2, d0102)) := by
  refine ⟨by with_unfolding_all rfl, ?_⟩
  intro h
  rw [show get_fund_price M4 A4 fundA = .error (strptimeErrMsg ("10.50")) by
    with_unfolding_all rfl] at h
  exact Except.noConfusion h

/-- C4 amended: for a table whose rows are ordered by ascending date and
whose date column precedes the closing-price column (the layout the
data source guarantees; read_csv keeps file order and the rename is
positional), get_fund_price returns the last row verbatim: its price
text parsed as an exact decimal and its date text parsed strictly as a
compact calendar date. -/
theorem latest_quote_is_last_row_verbatim
    (M : List (String × String × Date))
    (A : List (String × List (List String)))
    (name file : String) (mdt : Date)
    (header : List String) (rows : List (List String)) (di ci : Nat)
    (lastRow : List String) (P : ℚ) (D : Date)
    (hM : lookupDict M name = some (file, mdt))
    (hA : lookupDict A file = some (header :: rows))
    (hdi : header.findIdx? (fun s => s == dtColName) = some di)
    (hci : header.findIdx? (fun s => s == closeColName) = some ci)
    (horder : di < ci)
    (hfields : ∀ r ∈ rows, (r.get? di).isSome ∧ (r.get? ci).isSome)
    (hlast : rows.getLast? = some lastRow)
    (hasc : tableAscending di rows = true)
    (hP : parseDecimal (fieldAt lastRow ci) = some P)
    (hD : strptimeYmd8 (fieldAt lastRow di) = some D) :
    get_fund_price M A name = .ok (some (P, D)) := by
  have hread : readCsvTable (header :: rows) =
      .ok (rows.map (fun r => (fieldAt r di, fieldAt r ci))) := by
    show (match header.findIdx? (fun s => s == dtColName),
               header.findIdx? (fun s => s == closeColName) with
          | some di2, some ci2 => rows.mapM (rowFields (min di2 ci2) (max di2 ci2))
          | _, _ => (.error ("Usecols do not match columns") :
              Except String (List (String × String)))) = _
    rw [hdi, hci]
    show rows.mapM (rowFields (min di ci) (max di ci)) = _
    rw [min_eq_left horder.le, max_eq_right horder.le]
    exact mapM_rowFields_ok di ci rows hfields
  unfold get_fund_price
  rw [hM]
  show getQuoteFromMember A file = _
  unfold getQuoteFromMember
  rw [hA]
  show (match readCsvTable (header :: rows) with
        | .error e => (.error e : Except String (Option (ℚ × Date)))
        | .ok rows2 =>
          match rows2.getLast? with
          | none => .error ("single positional indexer is out-of-bounds")
          | some lastRow2 =>
            match parseDecimal lastRow2.2, strptimeYmd8 lastRow2.1 with
            | some p, some dt => .ok (some (p, dt))
            | none, _ => .error ("InvalidOperation " ++ lastRow2.2)
            | some _, none => .error (strptimeErrMsg lastRow2.1)) = _
  rw [hread]
  show (match (rows.map (fun r => (fieldAt r di, fieldAt r ci))).getLast? with
        | none => (.error ("single positional indexer is out-of-bounds") :
            Except String (Option (ℚ × Date)))
        | some lastRow2 =>
          match parseDecimal lastRow2.2, strptimeYmd8 lastRow2.1 with
          | some p, some dt => .ok (some (p, dt))
          | none, _ => .error ("InvalidOperation " ++ lastRow2.2)
          | some _, none => .error (strptimeErrMsg lastRow2.1)) = _
  rw [List.getLast?_map, hlast]
  show (match parseDecimal (fieldAt lastRow ci), strptimeYmd8 (fieldAt lastRow di) with
        | some p, some dt => (.ok (some (p, dt)) : Except String (Option (ℚ × Date)))
        | none, _ => .error ("InvalidOperation " ++ (fieldAt lastRow ci))
        | some _, none => .error (strptimeErrMsg (fieldAt lastRow di))) = _
  rw [hP, hD]

theorem latest_quote_is_last_row_verbatim_witness :
    get_fund_price M0 A0 fundA = .ok (some ((21 : ℚ) / 2, d0102)) :=
  latest_quote_is_last_row_verbatim M0 A0 fundA fileFund d0102
    ["<DTYYYYMMDD>", "<CLOSE>"] [["20230101", "10.00"], ["20230102", "10.50"]]
    0 1 ["20230102", "10.50"] ((21 : ℚ) / 2) d0102
    (by decide) (by decide) (by decide) (by decide) (by decide) (by decide)
    (by decide) (by decide) (by with_unfolding_all rfl) (by decide)

/-- The parse loop, run from any dict state, errors at the first
non-matching line with that raw line embedded in the message. -/
theorem parseGo_error_on_bad (pre post : List String) (l : String)
    (d : List (String × String × Date))
    (hpre : ∀ x ∈ pre, lineOk x = true) (hbad : matchDateLine l = none) :
    parseLinesGo d (pre ++ l :: post) = .error (lstLineErrMsg l) := by
  induction pre generalizing d with
  | nil =>
    show parseLinesGo d (l :: post) = _
    unfold parseLinesGo
    rw [hbad]
  | cons p ps ih =>
    have hp := hpre p (by simp)
    unfold lineOk at hp
    cases hm : matchDateLine p with
    | none =>
      rw [hm] at hp
      exact Bool.noConfusion (show false = true from hp)
    | some g =>
      rw [hm] at hp
      have hps : (strptimeYmdDashed g.1).isSome = true := hp
      cases hs : strptimeYmdDashed g.1 with
      | none =>
        rw [hs] at hps
        exact Bool.noConfusion (show false = true from hps)
      | some dt =>
        have hstep : parseLinesGo d ((p :: ps) ++ l :: post) =
            parseLinesGo (dictInsert d g.2.2 (g.2.1, dt)) (ps ++ l :: post) := by
          show (match matchDateLine p with
                | none => (.error (lstLineErrMsg p) :
                    Except String (List (String × String × Date)))
                | some g2 =>
                  match strptimeYmdDashed g2.1 with
                  | none => .error (strptimeErrMsg g2.1)
                  | some dt2 =>
                    parseLinesGo (dictInsert d g2.2.2 (g2.2.1, dt2)) (ps ++ l :: post)) = _
          rw [hm]
          show (match strptimeYmdDashed g.1 with
                | none => (.error (strptimeErrMsg g.1) :
                    Except String (List (String × String × Date)))
                | some dt2 =>
                  parseLinesGo (dictInsert d g.2.2 (g.2.1, dt2)) (ps ++ l :: post)) = _
          rw [hs]
        rw [hstep]
        exact ih _ (fun x hx => hpre x (by simp [hx]))

/-- C6: a manifest whose body (after the fixed header and trailer)
contains a line that does not match the record pattern fails to parse:
the result is an error whose message is a fixed prefix followed by that
exact raw line, and no mapping at all is returned.  The named line is
the first bad one: lines before it parse. -/
theorem manifest_bad_line_fails (lines : List String) (pre post : List String)
    (l : String)
    (hbody : manifestBody lines = pre ++ l :: post)
    (hpre : ∀ x ∈ pre, lineOk x = true)
    (hbad : matchDateLine l = none) :
    parseMstfunLines lines = .error (lstLineErrMsg l) ∧
    lstLineErrMsg l = "Could not extract information fromlst\x27s line: " ++ l ∧
    ∀ m, parseMstfunLines lines ≠ .ok m := by
  have h1 : parseMstfunLines lines = .error (lstLineErrMsg l) := by
    unfold parseMstfunLines
    rw [hbody]
    exact parseGo_error_on_bad pre post l [] hpre hbad
  refine ⟨h1, ?_, ?_⟩
  · unfold lstLineErrMsg
    rw [← String.append_assoc]
    exact congrArg (fun s => s ++ l) (by decide)
  · intro m hm
    rw [h1] at hm
    exact Except.noConfusion hm

theorem manifest_bad_line_fails_witness :
    parseMstfunLines ["h1", "h2", "h3", "garbage", "t1", "t2"] =
      .error (lstLineErrMsg ("garbage")) ∧
    lstLineErrMsg ("garbage") =
      "Could not extract information fromlst\x27s line: " ++ ("garbage") ∧
    ∀ m, parseMstfunLines ["h1", "h2", "h3", "garbage", "t1", "t2"] ≠ .ok m :=
  manifest_bad_line_fails ["h1", "h2", "h3", "garbage", "t1", "t2"] [] []
    ("garbage") (by decide) (by simp) (by decide)

/-- One dict insertion keeps an existing key in place and appends a new
key at the end. -/
theorem dictKeys_insert {α : Type} (d : List (String × α)) (k : String) (v : α) :
    dictKeys (dictInsert d k v) = insKey (dictKeys d) k := by
  induction d with
  | nil =>
    show [k] = insKey [] k
    simp [insKey]
  | cons p rest ih =>
    obtain ⟨k0, v0⟩ := p
    show dictKeys (if k0 = k then (k, v) :: rest else (k0, v0) :: dictInsert rest k v) =
      insKey (k0 :: dictKeys rest) k
    by_cases h : k0 = k
    · subst h
      rw [if_pos rfl]
      show k0 :: dictKeys rest = insKey (k0 :: dictKeys rest) k0
      unfold insKey
      rw [if_pos (by simp)]
    · rw [if_neg h]
      show k0 :: dictKeys (dictInsert rest k v) = _
      rw [ih]
      unfold insKey
      by_cases hm : k ∈ dictKeys rest
      · rw [if_pos hm, if_pos (by simp [hm])]
      · have hne : ¬ k ∈ k0 :: dictKeys rest := by
          simp only [List.mem_cons]
          rintro (hh | hh)
          · exact h hh.symm
          · exact hm hh
        rw [if_neg hm, if_neg hne]
        simp

/-- The parse loop on all-accepted lines returns a dict whose keys are
the folded insertions of the captured names. -/
theorem parseGo_ok (ls : List String) (d : List (String × String × Date))
    (hok : ∀ x ∈ ls, lineOk x = true) :
    ∃ m, parseLinesGo d ls = .ok m ∧
      dictKeys m = ls.foldl (fun ks x => insKey ks (lineNameOf x)) (dictKeys d) := by
  induction ls generalizing d with
  | nil => exact ⟨d, rfl, rfl⟩
  | cons p ps ih =>
    have hp := hok p (by simp)
    unfold lineOk at hp
    cases hm : matchDateLine p with
    | none =>
      rw [hm] at hp
      exact Bool.noConfusion (show false = true from hp)
    | some g =>
      rw [hm] at hp
      have hps : (strptimeYmdDashed g.1).isSome = true := hp
      cases hs : strptimeYmdDashed g.1 with
      | none =>
        rw [hs] at hps
        exact Bool.noConfusion (show false = true from hps)
      | some dt =>
        have hstep : parseLinesGo d (p :: ps) =
            parseLinesGo (dictInsert d g.2.2 (g.2.1, dt)) ps := by
          show (match matchDateLine p with
                | none => (.error (lstLineErrMsg p) :
                    Except String (List (String × String × Date)))
                | some g2 =>
                  match strptimeYmdDashed g2.1 with
                  | none => .error (strptimeErrMsg g2.1)
                  | some dt2 =>
                    parseLinesGo (dictInsert d g2.2.2 (g2.2.1, dt2)) ps) = _
          rw [hm]
          show (match strptimeYmdDashed g.1 with
                | none => (.error (strptimeErrMsg g.1) :
                    Except String (List (String × String × Date)))
                | some dt2 =>
                  parseLinesGo (dictInsert d g.2.2 (g.2.1, dt2)) ps) = _
          rw [hs]
        obtain ⟨m, h1, h2⟩ :=
          ih (dictInsert d g.2.2 (g.2.1, dt)) (fun x hx => hok x (by simp [hx]))
        refine ⟨m, by rw [hstep]; exact h1, ?_⟩
        rw [h2, dictKeys_insert, List.foldl_cons]
        congr 2
        unfold lineNameOf
        rw [hm]

theorem mem_foldl_insKey (names : List String) (ks : List String) (x : String) :
    x ∈ names.foldl insKey ks ↔ x ∈ ks ∨ x ∈ names := by
  induction names generalizing ks with
  | nil => simp
  | cons n ns ih =>
    rw [List.foldl_cons, ih]
    have hik : x ∈ insKey ks n ↔ x ∈ ks ∨ x = n := by
      unfold insKey
      by_cases hm : n ∈ ks
      · rw [if_pos hm]
        constructor
        · exact Or.inl
        · rintro (hh | rfl)
          · exact hh
          · exact hm
      · rw [if_neg hm]
        simp
    rw [hik, List.mem_cons]
    tauto

theorem nodup_foldl_insKey (names : List String) (ks : List String)
    (h : ks.Nodup) : (names.foldl insKey ks).Nodup := by
  induction names generalizing ks with
  | nil => exact h
  | cons n ns ih =>
    rw [List.foldl_cons]
    apply ih
    unfold insKey
    by_cases hm : n ∈ ks
    · rw [if_pos hm]
      exact h
    · rw [if_neg hm]
      exact h.append (List.nodup_singleton n)
        (fun a ha hb => hm (by rwa [List.mem_singleton.mp hb] at ha))

theorem length_foldl_insKey (names : List String) :
    (names.foldl insKey []).length = names.dedup.length := by
  have h1 : (names.foldl insKey []).Nodup :=
    nodup_foldl_insKey names [] List.nodup_nil
  have h2 : names.dedup.Nodup := List.nodup_dedup names
  have h3 : ∀ x, x ∈ names.foldl insKey [] ↔ x ∈ names.dedup := by
    intro x
    rw [mem_foldl_insKey, List.mem_dedup]
    simp
  exact ((List.perm_ext_iff_of_nodup h1 h2).mpr h3).length_eq

/-- C7: a well-formed manifest (every body line after dropping the first
three and last two lines is accepted) parses to a dict with one entry
per distinct captured fund name: exactly the number of deduplicated
names, which is exactly (number of lines minus 5) when the names are
pairwise distinct; later duplicates overwrite earlier entries. -/
theorem parse_entry_count (lines : List String)
    (h5 : 5 ≤ lines.length)
    (hok : ∀ x ∈ manifestBody lines, lineOk x = true) :
    ∃ m, parseMstfunLines lines = .ok m ∧
      m.length = ((manifestBody lines).map lineNameOf).dedup.length ∧
      (((manifestBody lines).map lineNameOf).Nodup →
        m.length = lines.length - 5) := by
  obtain ⟨m, h1, h2⟩ := parseGo_ok (manifestBody lines) [] hok
  have hkeys : m.length = ((manifestBody lines).map lineNameOf).dedup.length := by
    have hlm : m.length = (dictKeys m).length := by
      unfold dictKeys
      rw [List.length_map]
    rw [hlm, h2]
    have hfm := List.foldl_map lineNameOf insKey (manifestBody lines) ([] : List String)
    show ((manifestBody lines).foldl (fun ks x => insKey ks (lineNameOf x)) []).length = _
    rw [← hfm]
    exact length_foldl_insKey _
  refine ⟨m, h1, hkeys, ?_⟩
  intro hnd
  rw [hkeys, List.dedup_eq_self.mpr hnd, List.length_map]
  show (manifestBody lines).length = lines.length - 5
  unfold manifestBody
  rw [List.length_dropLast, List.length_dropLast, List.length_drop]
  omega

theorem parse_entry_count_witness :
    5 ≤ mLines.length ∧
    (∃ m, parseMstfunLines mLines = .ok m ∧
      m.length = ((manifestBody mLines).map lineNameOf).dedup.length ∧
      (((manifestBody mLines).map lineNameOf).Nodup →
        m.length = mLines.length - 5)) :=
  ⟨by decide, parse_entry_count mLines (by decide) (by decide)⟩

theorem bindSome {α β : Type} (a : α) (f : α → Option β) :
    (some a).bind f = f a := rfl

theorem dropWhile_all_append (p : Char → Bool) (a : List Char) (c : Char)
    (rest : List Char) (ha : ∀ x ∈ a, p x = true) (hc : p c = false) :
    (a ++ c :: rest).dropWhile p = c :: rest := by
  induction a with
  | nil => simp [List.dropWhile_cons, hc]
  | cons y ys ih =>
    have hy := ha y (by simp)
    rw [List.cons_append, List.dropWhile_cons, hy]
    exact ih (fun x hx => ha x (by simp [hx]))

theorem takeWhile_all_append (p : Char → Bool) (a : List Char) (c : Char)
    (rest : List Char) (ha : ∀ x ∈ a, p x = true) (hc : p c = false) :
    (a ++ c :: rest).takeWhile p = a := by
  induction a with
  | nil => simp [List.takeWhile_cons, hc]
  | cons y ys ih =>
    have hy := ha y (by simp)
    rw [List.cons_append, List.takeWhile_cons, hy]
    rw [ih (fun x hx => ha x (by simp [hx]))]
    simp

/-- A mandatory-whitespace run consumes a maximal whitespace block up to
the next non-whitespace character. -/
theorem eatSpaces1_run (sph : Char) (spt : List Char) (ch : Char)
    (rest : List Char) (hall : ∀ x ∈ sph :: spt, isSpacePy x = true)
    (hch : isSpacePy ch = false) :
    eatSpaces1 (sph :: (spt ++ ch :: rest)) = some (ch :: rest) := by
  have h0 := hall sph (by simp)
  show (if isSpacePy sph then some ((spt ++ ch :: rest).dropWhile isSpacePy)
        else none) = _
  rw [h0, if_pos rfl]
  rw [dropWhile_all_append isSpacePy spt ch rest
    (fun x hx => hall x (by simp [hx])) hch]

/-- A mandatory-token run consumes a maximal non-whitespace block up to
the next whitespace character. -/
theorem eatToken1_run (th : Char) (tt : List Char) (s : Char)
    (rest : List Char) (hall : ∀ x ∈ th :: tt, isSpacePy x = false)
    (hs : isSpacePy s = true) :
    eatToken1 (th :: (tt ++ s :: rest)) = some (th :: tt, s :: rest) := by
  have h0 := hall th (by simp)
  show (if isSpacePy th then none
        else some ((th :: (tt ++ s :: rest)).takeWhile (fun x => !isSpacePy x),
                   (th :: (tt ++ s :: rest)).dropWhile (fun x => !isSpacePy x))) = _
  rw [h0, if_neg (by simp)]
  rw [List.takeWhile_cons, List.dropWhile_cons]
  rw [show (!isSpacePy th) = true by simp [h0]]
  rw [takeWhile_all_append (fun x => !isSpacePy x) tt s rest
    (fun x hx => by simp [hall x (by simp [hx])]) (by simp [hs])]
  rw [dropWhile_all_append (fun x => !isSpacePy x) tt s rest
    (fun x hx => by simp [hall x (by simp [hx])]) (by simp [hs])]
  simp

/-- C9: a manifest data line of the documented shape (date token, three
filler tokens, archive member token) whose free-text name field is a
single non-whitespace character does not match the line pattern (the
name group needs at least two characters), and the parse of a manifest
containing that line as its body fails naming it. -/
theorem single_char_name_rejected
    (y1 y2 y3 y4 mo1 mo2 da1 da2 : Char)
    (s1 s2 s3 s4 s5 t1 t2 t3 mem : List Char) (c : Char) (l : List Char)
    (hy1 : isDigitA y1 = true) (hy2 : isDigitA y2 = true)
    (hy3 : isDigitA y3 = true) (hy4 : isDigitA y4 = true)
    (hmo1 : isDigitA mo1 = true) (hmo2 : isDigitA mo2 = true)
    (hda1 : isDigitA da1 = true) (hda2 : isDigitA da2 = true)
    (hs1 : s1 ≠ [] ∧ ∀ x ∈ s1, isSpacePy x = true)
    (hs2 : s2 ≠ [] ∧ ∀ x ∈ s2, isSpacePy x = true)
    (hs3 : s3 ≠ [] ∧ ∀ x ∈ s3, isSpacePy x = true)
    (hs4 : s4 ≠ [] ∧ ∀ x ∈ s4, isSpacePy x = true)
    (hs5 : s5 ≠ [] ∧ ∀ x ∈ s5, isSpacePy x = true)
    (ht1 : t1 ≠ [] ∧ ∀ x ∈ t1, isSpacePy x = false)
    (ht2 : t2 ≠ [] ∧ ∀ x ∈ t2, isSpacePy x = false)
    (ht3 : t3 ≠ [] ∧ ∀ x ∈ t3, isSpacePy x = false)
    (hmem : mem ≠ [] ∧ ∀ x ∈ mem, isSpacePy x = false)
    (hc : isSpacePy c = false)
    (hl : l = y1 :: y2 :: y3 :: y4 :: '-' :: mo1 :: mo2 :: '-' :: da1 :: da2 ::
      (s1 ++ (t1 ++ (s2 ++ (t2 ++ (s3 ++ (t3 ++ (s4 ++ (mem ++ (s5 ++ [c])))))))))) :
    matchDateLine (String.mk l) = none ∧
    parseLinesGo [] [String.mk l] = .error (lstLineErrMsg (String.mk l)) := by
  obtain ⟨s1h, s1t, rfl⟩ := List.exists_cons_of_ne_nil hs1.1
  obtain ⟨s2h, s2t, rfl⟩ := List.exists_cons_of_ne_nil hs2.1
  obtain ⟨s3h, s3t, rfl⟩ := List.exists_cons_of_ne_nil hs3.1
  obtain ⟨s4h, s4t, rfl⟩ := List.exists_cons_of_ne_nil hs4.1
  obtain ⟨s5h, s5t, rfl⟩ := List.exists_cons_of_ne_nil hs5.1
  obtain ⟨t1h, t1t, rfl⟩ := List.exists_cons_of_ne_nil ht1.1
  obtain ⟨t2h, t2t, rfl⟩ := List.exists_cons_of_ne_nil ht2.1
  obtain ⟨t3h, t3t, rfl⟩ := List.exists_cons_of_ne_nil ht3.1
  obtain ⟨mh, mt, rfl⟩ := List.exists_cons_of_ne_nil hmem.1
  subst hl
  have hmain : matchDateLine (String.mk (y1 :: y2 :: y3 :: y4 :: '-' :: mo1 :: mo2 :: '-' :: da1 :: da2 ::
      ((s1h :: s1t) ++ ((t1h :: t1t) ++ ((s2h :: s2t) ++ ((t2h :: t2t) ++ ((s3h :: s3t) ++
       ((t3h :: t3t) ++ ((s4h :: s4t) ++ ((mh :: mt) ++ ((s5h :: s5t) ++ [c]))))))))))) = none := by
    show matchDateLineL (y1 :: y2 :: y3 :: y4 :: '-' :: mo1 :: mo2 :: '-' :: da1 :: da2 ::
      ((s1h :: s1t) ++ ((t1h :: t1t) ++ ((s2h :: s2t) ++ ((t2h :: t2t) ++ ((s3h :: s3t) ++
       ((t3h :: t3t) ++ ((s4h :: s4t) ++ ((mh :: mt) ++ ((s5h :: s5t) ++ [c])))))))))) = none
    simp only [matchDateLineL, hy1, hy2, hy3, hy4, hmo1, hmo2, hda1, hda2,
      List.cons_append, beq_self_eq_true, Bool.and_self, Bool.and_true, Bool.true_and,
      if_true]
    rw [eatSpaces1_run s1h s1t t1h _ hs1.2 (ht1.2 t1h (by simp))]
    simp only [bindSome]
    rw [eatToken1_run t1h t1t s2h _ ht1.2 (hs2.2 s2h (by simp))]
    simp only [bindSome]
    rw [eatSpaces1_run s2h s2t t2h _ hs2.2 (ht2.2 t2h (by simp))]
    simp only [bindSome]
    rw [eatToken1_run t2h t2t s3h _ ht2.2 (hs3.2 s3h (by simp))]
    simp only [bindSome]
    rw [eatSpaces1_run s3h s3t t3h _ hs3.2 (ht3.2 t3h (by simp))]
    simp only [bindSome]
    rw [eatToken1_run t3h t3t s4h _ ht3.2 (hs4.2 s4h (by simp))]
    simp only [bindSome]
    rw [eatSpaces1_run s4h s4t mh _ hs4.2 (hmem.2 mh (by simp))]
    simp only [bindSome]
    rw [eatToken1_run mh mt s5h _ hmem.2 (hs5.2 s5h (by simp))]
    simp only [bindSome]
    rw [eatSpaces1_run s5h s5t c [] hs5.2 hc]
    simp only [bindSome]
    have hcore : trimTrailPy [c] = [c] := by
      unfold trimTrailPy
      simp [List.dropWhile_cons, hc]
    rw [hcore]
    rw [if_neg (by simp)]
  refine ⟨hmain, ?_⟩
  show (match matchDateLine (String.mk _) with
        | none => (.error (lstLineErrMsg (String.mk _)) :
            Except String (List (String × String × Date)))
        | some g =>
          match strptimeYmdDashed g.1 with
          | none => .error (strptimeErrMsg g.1)
          | some dt => parseLinesGo (dictInsert [] g.2.2 (g.2.1, dt)) []) = _
  rw [hmain]

theorem single_char_name_rejected_witness :
    matchDateLine (String.mk cexLine) = none ∧
    parseLinesGo [] [String.mk cexLine] =
      .error (lstLineErrMsg (String.mk cexLine)) :=
  single_char_name_rejected '2' '0' '1' '7' '0' '1' '0' '1'
    [' '] [' '] [' '] [' '] [' ']
    (['a']) (['b']) (['c']) (['f', 'u', 'n', 'd', '.', 'm', 's', 't']) 'X' cexLine
    (by decide) (by decide) (by decide) (by decide)
    (by decide) (by decide) (by decide) (by decide)
    (by decide) (by decide) (by decide) (by decide) (by decide)
    (by decide) (by decide) (by decide) (by decide)
    (by decide) (by decide)

end ImportFinData
